import Mathlib

/-!
Verification of the hive task/worktree manager against its specification.

The development shallowly embeds the core modules of the repository:

* `packages/cli/src/lib/tasks.ts` — the task registry (validation, add,
  get, update, remove over the persisted task list);
* `packages/cli/src/lib/utils.ts` — `generateSlug` together with a model of
  the `slugify` library call it performs (options `lower: true`,
  `strict: true`, `remove: /[*+~.()'"!:@]/g`);
* `packages/cli/src/lib/git.ts` — the worktree/merge layer (`mergeBranch`,
  `abortMerge`, `hasUncommittedChanges`, `removeWorktree`, `getDiffStats`)
  over an abstract git state, with the outcomes of the underlying git
  subprocess supplied by explicit oracle values;
* `packages/cli/src/commands/merge.tsx` — the merge command driver
  (`loadTaskInfo` preconditions and `handleMerge`);
* `packages/cli/src/lib/git-analysis.ts` — `getOverlappingFiles`;
* `packages/cli/src/lib/symlinks.ts` — `createSymlinks` over an abstract
  filesystem.

Stateful TypeScript (the persisted task list, the git repository) becomes
explicit state passing; fallible code returns `Except`; JavaScript `Map`
and `Set` become insertion-ordered association lists and duplicate-free
lists, matching their iteration semantics.
-/

namespace Hive

/-! ## Task registry (`packages/cli/src/lib/tasks.ts`) -/

/-- `TaskStatus` — `'active' | 'merged' | 'dropped'`. -/
inductive TaskStatus where
  | active
  | merged
  | dropped
deriving DecidableEq, Repr

/-- The `Task` record of `tasks.ts`. -/
structure Task where
  slug : String
  description : String
  branch : String
  worktreePath : String
  createdAt : String
  status : TaskStatus
deriving DecidableEq, Repr

/-- `Partial<Task>` — an update object; `none` models an absent key
(`undefined`), so spreading `{...task, ...updates}` becomes `Option.getD`
per field. -/
structure TaskUpdates where
  slug : Option String := none
  description : Option String := none
  branch : Option String := none
  worktreePath : Option String := none
  createdAt : Option String := none
  status : Option TaskStatus := none
deriving DecidableEq, Repr

/-- The errors thrown by the registry; the source throws `Error` with
distinguishing messages, embedded here as distinct constructors. -/
inductive TaskError where
  | invalidField (field : String)
  | duplicateSlug (slug : String)
  | notFound (slug : String)
  | immutableSlug
deriving DecidableEq, Repr

/-- The characters accepted by the slug pattern `^[a-z0-9-]+$` (one
character position of the character class). -/
def isSlugChar (c : Char) : Bool :=
  (Char.ofNat 97 ≤ c && c ≤ Char.ofNat 122) ||
  (Char.ofNat 48 ≤ c && c ≤ Char.ofNat 57) ||
  c = Char.ofNat 45

/-- `^[a-z0-9-]+$`: a non-empty string of slug characters. -/
def slugPatternMatches (s : String) : Bool :=
  !(s = "") && s.toList.all isSlugChar

/-- `validateTask` of `tasks.ts`.  The JS truthiness tests `!task.field` on
string fields reject exactly the empty string; the status check
`validStatuses.includes(task.status)` always succeeds for the embedded
enumeration and so does not appear. -/
def validateTask (t : Task) : Except TaskError Unit :=
  if t.slug = "" then .error (.invalidField "slug")
  else if t.description = "" then .error (.invalidField "description")
  else if t.branch = "" then .error (.invalidField "branch")
  else if t.worktreePath = "" then .error (.invalidField "worktreePath")
  else if t.createdAt = "" then .error (.invalidField "createdAt")
  else if !(slugPatternMatches t.slug) then .error (.invalidField "slug format")
  else .ok ()

/-- `getTask` — `tasks.find((t) => t.slug === slug)`, `undefined` becoming
`null` and here `none`. -/
def getTask (slug : String) (store : List Task) : Option Task :=
  store.find? (fun t => t.slug = slug)

/-- `addTask`, as a transition on the persisted list.  On any throw the
file write never happens, so the stored list is returned unchanged beside
the error. -/
def addTask (t : Task) (store : List Task) : List Task × Except TaskError Task :=
  match validateTask t with
  | .error e => (store, .error e)
  | .ok _ =>
    if store.any (fun x => x.slug = t.slug) then
      (store, .error (.duplicateSlug t.slug))
    else
      (store ++ [t], .ok t)

/-- `{...task, ...updates}` — present update keys override the stored
fields, including present-but-empty strings. -/
def applyUpdates (t : Task) (u : TaskUpdates) : Task :=
  { slug := u.slug.getD t.slug
    description := u.description.getD t.description
    branch := u.branch.getD t.branch
    worktreePath := u.worktreePath.getD t.worktreePath
    createdAt := u.createdAt.getD t.createdAt
    status := u.status.getD t.status }

/-- The guard `updates.slug && updates.slug !== slug`: the update carries a
truthy (present, non-empty) slug different from the stored one. -/
def slugChangeRejected (slug : String) (u : TaskUpdates) : Bool :=
  match u.slug with
  | some s2 => !(s2 = "") && !(s2 = slug)
  | none => false

/-- The body of `updateTask` after `readTasks`: find the first record with
the slug (`findIndex`), reject a slug change, merge, re-validate, and
replace in place. -/
def updateTaskGo (slug : String) (u : TaskUpdates) :
    List Task → Except TaskError (List Task × Task)
  | [] => .error (.notFound slug)
  | t :: ts =>
    if t.slug = slug then
      if slugChangeRejected slug u then .error .immutableSlug
      else
        match validateTask (applyUpdates t u) with
        | .error e => .error e
        | .ok _ => .ok (applyUpdates t u :: ts, applyUpdates t u)
    else
      match updateTaskGo slug u ts with
      | .error e => .error e
      | .ok (ts2, t2) => .ok (t :: ts2, t2)

/-- `updateTask` as a transition on the persisted list: on any throw the
write never happens and the stored list is unchanged. -/
def updateTask (slug : String) (u : TaskUpdates) (store : List Task) :
    List Task × Except TaskError Task :=
  match updateTaskGo slug u store with
  | .error e => (store, .error e)
  | .ok (ts2, t2) => (ts2, .ok t2)

/-- `removeTask` — splice out the first record with the slug, reporting
whether one was found. -/
def removeTask (slug : String) : List Task → List Task × Bool
  | [] => ([], false)
  | t :: ts =>
    if t.slug = slug then (ts, true)
    else
      let (ts2, found) := removeTask slug ts
      (t :: ts2, found)

/-! ## Slug generation (`packages/cli/src/lib/utils.ts`)

`generateSlug` calls the `slugify` library with
`{lower: true, strict: true, remove: /[*+~.()'"!:@]/g}`.  The library's
pipeline for these options is: per input character, apply the character
map (identity on the characters modelled here — its entries translate
non-ASCII symbols), turn a literal replacement character `-` into a space,
and drop characters matched by the `remove` class; then (strict mode) drop
everything outside `[A-Za-z0-9\s]`; trim; replace each run of whitespace
by `-`; finally lower-case.  Character classes are embedded as concrete
character lists. -/

/-- The characters of the option `remove: /[*+~.()'"!:@]/g`
(`*`, `+`, `~`, `.`, `(`, `)`, the apostrophe, the double quote, `!`, `:`,
`@`, written by code point). -/
def slugifyRemoveChars : List Char :=
  [42, 43, 126, 46, 40, 41, 39, 34, 33, 58, 64].map Char.ofNat

/-- The whitespace characters matched by the JavaScript `\s` class that
are relevant here (space, tab, LF, VT, FF, CR). -/
def isJsSpace (c : Char) : Bool :=
  c = ' ' || c.toNat = 9 || c.toNat = 10 || c.toNat = 11 ||
  c.toNat = 12 || c.toNat = 13

/-- The character class `[A-Za-z0-9]` of slugify's strict filter, as a
concrete list. -/
def asciiAlnumChars : List Char :=
  "ABCDEFGHIJKLMNOPQRSTUVWXYZabcdefghijklmnopqrstuvwxyz0123456789".toList

/-- Upper-to-lower pairs realising `String.prototype.toLowerCase` on the
characters that survive the strict filter. -/
def asciiLowerPairs : List (Char × Char) :=
  (("ABCDEFGHIJKLMNOPQRSTUVWXYZ".toList).zip ("abcdefghijklmnopqrstuvwxyz".toList))

/-- `toLowerCase` restricted to the post-strict-filter alphabet. -/
def asciiToLower (c : Char) : Char :=
  match asciiLowerPairs.find? (fun p => p.1 = c) with
  | some p => p.2
  | none => c

/-- One character of slugify's reduce step: the replacement character `-`
becomes a space, and characters of the `remove` class are dropped. -/
def slugifyMapChar (c : Char) : List Char :=
  let a := if c = '-' then ' ' else c
  if a ∈ slugifyRemoveChars then [] else [a]

/-- `slug.trim()` — strip leading and trailing whitespace. -/
def trimChars (l : List Char) : List Char :=
  ((l.dropWhile isJsSpace).reverse.dropWhile isJsSpace).reverse

/-- `slug.replace(/\s+/g, '-')`: each maximal whitespace run becomes one
hyphen.  The flag records whether the previous character was whitespace. -/
def collapseSpacesGo : Bool → List Char → List Char
  | _, [] => []
  | inRun, c :: rest =>
    if isJsSpace c then
      if inRun then collapseSpacesGo true rest
      else '-' :: collapseSpacesGo true rest
    else c :: collapseSpacesGo false rest

/-- `slug.replace(/\s+/g, '-')`. -/
def collapseSpaces (l : List Char) : List Char :=
  collapseSpacesGo false l

/-- The `slugify(description, {lower: true, strict: true, remove: ...})`
call of `generateSlug`, on character lists. -/
def slugifyCore (s : List Char) : List Char :=
  let step1 := s.flatMap slugifyMapChar
  let step2 := step1.filter (fun c => c ∈ asciiAlnumChars || isJsSpace c)
  let step3 := trimChars step2
  (collapseSpaces step3).map asciiToLower

/-- `truncated.lastIndexOf('-')`, as an `Option`al index (`none` for the
JavaScript `-1`). -/
def lastIndexOfChar (c : Char) : List Char → Option Nat
  | [] => none
  | x :: xs =>
    match lastIndexOfChar c xs with
    | some i => some (i + 1)
    | none => if x = c then some 0 else none

/-- The truncation tail of `generateSlug`: at most 50 characters, cutting
at the last hyphen of the first 50 when one sits after position 0
(`lastHyphen > 0`; the JavaScript `-1` is the `none` arm). -/
def generateSlugList (desc : List Char) : List Char :=
  if (slugifyCore desc).length ≤ 50 then slugifyCore desc
  else
    match lastIndexOfChar '-' ((slugifyCore desc).take 50) with
    | some i =>
      if 0 < i then ((slugifyCore desc).take 50).take i
      else (slugifyCore desc).take 50
    | none => (slugifyCore desc).take 50

/-- `generateSlug` of `utils.ts`. -/
def generateSlug (description : String) : String :=
  String.mk (generateSlugList description.toList)

/-! ## Worktree and merge layer (`packages/cli/src/lib/git.ts`)

The git repository is embedded as an abstract state: the worktree listing,
the local branch names, the branch checked out in the main working copy,
whether a merge is in progress there, per-worktree cleanliness, and — for
the diff operations — the file contents at the relevant revisions.
Line-level diffing is abstracted: a file enters a diff exactly when the
two compared contents differ, and a changed file is counted with
full-rewrite line counts.  The outcome of the one genuinely external step,
`git merge`, is supplied by an explicit oracle. -/

/-- The `WorktreeInfo` record of `git.ts`. -/
structure WorktreeInfo where
  slug : String
  path : String
  branch : String
  head : String
  detached : Bool
deriving DecidableEq, Repr

/-- The abstract git repository state. -/
structure GitState where
  /-- `isGitRepository()` for the working directory. -/
  isRepo : Bool
  /-- the parsed `git worktree list` output -/
  worktrees : List WorktreeInfo
  /-- local branch names (`git.branchLocal().all`) -/
  localBranches : List String
  /-- the branch checked out in the main working copy -/
  currentBranch : String
  /-- the branch `getDefaultBranch` resolves to -/
  defaultBranch : String
  /-- whether a merge is in progress in the main working copy
  (`MERGE_HEAD` present) -/
  mergeInProgress : Bool
  /-- `status().isClean()` per worktree path -/
  cleanWorktree : String → Bool
  /-- the candidate file paths over which diffs are computed -/
  fileUniverse : List String
  /-- file contents at the tip of a branch -/
  tipContent : String → String → Option String
  /-- file contents in a worktree's working tree, by worktree path -/
  workingContent : String → String → Option String
  /-- file contents at a worktree's `HEAD` commit, by worktree path -/
  headContent : String → String → Option String
  /-- file contents at the merge base of a branch and a worktree's `HEAD` -/
  mergeBaseContent : String → String → String → Option String

/-- One file entry of a `DiffResult`. -/
structure DiffFile where
  file : String
  changes : Nat
  insertions : Nat
  deletions : Nat
deriving DecidableEq, Repr

/-- The `DiffStats` record of `git.ts`. -/
structure DiffStats where
  files : List DiffFile
  totalFiles : Nat
  totalInsertions : Nat
  totalDeletions : Nat
  totalChanges : Nat
deriving DecidableEq, Repr

/-- The lines of an optional file content (`none` = file absent). -/
def linesOf : Option String → List String
  | none => []
  | some s => s.splitOn "\n"

/-- The abstracted diff between two content maps: a file of the universe
is reported exactly when its contents differ, with full-rewrite line
counts. -/
def contentDiff (univ : List String) (oldC newC : String → Option String) :
    DiffStats :=
  let changed := univ.filter (fun f => !(oldC f == newC f))
  let files := changed.map (fun f =>
    { file := f
      changes := (linesOf (newC f)).length + (linesOf (oldC f)).length
      insertions := (linesOf (newC f)).length
      deletions := (linesOf (oldC f)).length : DiffFile })
  { files := files
    totalFiles := files.length
    totalInsertions := (files.map (fun f => f.insertions)).sum
    totalDeletions := (files.map (fun f => f.deletions)).sum
    totalChanges := files.length }

/-- `getDiffStats` of `git.ts`: repository check, worktree lookup, base
defaulting, then `worktreeGit.diffSummary([base])` — a two-dot
`git diff <base>` run inside the worktree, comparing the tip of `base`
with the worktree's working tree. -/
def getDiffStats (st : GitState) (slug : String) (baseBranch : Option String) :
    Except String DiffStats :=
  if !st.isRepo then .error "Not a git repository"
  else
    match st.worktrees.find? (fun w => w.slug = slug) with
    | none => .error ("Worktree " ++ slug ++ " not found")
    | some w =>
      let base := baseBranch.getD st.defaultBranch
      .ok (contentDiff st.fileUniverse (st.tipContent base) (st.workingContent w.path))

/-- Modelled from the spec: diff statistics over the range
`baseBranch...HEAD` (three-dot / merge-base form), i.e. the merge base of
the base branch and the worktree's `HEAD` compared with that `HEAD` — the
comparison the spec says `getDiffStats` performs. -/
def specThreeDotDiffStats (st : GitState) (w : WorktreeInfo) (base : String) :
    DiffStats :=
  contentDiff st.fileUniverse (st.mergeBaseContent base w.path) (st.headContent w.path)

/-- `hasUncommittedChanges` of `git.ts`: repository check, worktree
lookup, then `!status.isClean()` in the worktree. -/
def hasUncommittedChanges (st : GitState) (slug : String) : Except String Bool :=
  if !st.isRepo then .error "Not a git repository"
  else
    match st.worktrees.find? (fun w => w.slug = slug) with
    | none => .error ("Worktree " ++ slug ++ " not found")
    | some w => .ok (!(st.cleanWorktree w.path))

/-- `removeWorktree` of `git.ts`: repository check, lookup (`NotFound`),
forced worktree removal, then best-effort branch deletion (attempted only
when the branch exists; failures are swallowed). -/
def removeWorktree (st : GitState) (slug : String) : GitState × Except String Unit :=
  if !st.isRepo then (st, .error "Not a git repository")
  else
    match st.worktrees.find? (fun w => w.slug = slug) with
    | none => (st, .error ("Worktree " ++ slug ++ " not found"))
    | some w =>
      let branchName := "hive/" ++ slug
      let st1 := { st with
        worktrees := st.worktrees.filter (fun x => !(x.path = w.path))
        localBranches := st.localBranches.filter (fun b => !(b = branchName)) }
      (st1, .ok ())

/-- The outcome of the external `git merge` subprocess, as observed by
`mergeBranch`: whether the call succeeds, and the conflicted file list
`git.status()` reports after a failure. -/
structure MergeOracle where
  mergeSucceeds : Bool
  conflictedAfterFail : List String
deriving Repr

/-- `mergeBranch` of `git.ts`: repository check, worktree lookup, target
defaulting, checkout of the target in the main working copy when not
already there, best-effort pull (content effects outside this state, so a
no-op here), then the merge attempt.  A failed merge whose status shows
conflicted files yields `(success := false, conflicts)` and leaves the
merge in progress; a failed merge without conflicts is rethrown as a
wrapped `GitError`. -/
def mergeBranch (st : GitState) (o : MergeOracle) (slug : String)
    (targetBranch : Option String) : GitState × Except String (Bool × List String) :=
  if !st.isRepo then (st, .error "Not a git repository")
  else
    match st.worktrees.find? (fun w => w.slug = slug) with
    | none => (st, .error ("Worktree " ++ slug ++ " not found"))
    | some _ =>
      let target := targetBranch.getD st.defaultBranch
      let st1 :=
        if !(st.currentBranch = target) then { st with currentBranch := target }
        else st
      if o.mergeSucceeds then (st1, .ok (true, []))
      else if !(o.conflictedAfterFail = []) then
        ({ st1 with mergeInProgress := true }, .ok (false, o.conflictedAfterFail))
      else (st1, .error "Failed to merge branch")

/-- Substring search realising `String.prototype.includes`. -/
def listContainsSub (pat l : List Char) : Bool :=
  (List.range (l.length + 1)).any (fun i => (l.drop i).take pat.length = pat)

/-- `message.includes(pattern)`. -/
def msgIncludes (msg pat : String) : Bool :=
  listContainsSub pat.toList msg.toList

/-- Modelled from git's observable behaviour: `git merge --abort` with no
merge in progress (no `MERGE_HEAD`) exits non-zero with the message
"There is no merge to abort (MERGE_HEAD missing)."; with a merge in
progress it succeeds and clears it. -/
def gitRawAbortResult (st : GitState) : Except String Unit :=
  if st.mergeInProgress then .ok ()
  else .error "fatal: There is no merge to abort (MERGE_HEAD missing)."

/-- The `catch` clause of `abortMerge`: errors whose message includes
`'no merge in progress'` are swallowed, every other failure (the
repository check included, since its `GitError` is thrown inside the
`try`) is surfaced as `GitError('Failed to abort merge')`. -/
def abortMergeWith (st : GitState) (raw : Except String Unit) :
    GitState × Except String Unit :=
  if !st.isRepo then (st, .error "Failed to abort merge")
  else
    match raw with
    | .ok _ => ({ st with mergeInProgress := false }, .ok ())
    | .error msg =>
      if msgIncludes msg "no merge in progress" then (st, .ok ())
      else (st, .error "Failed to abort merge")

/-- `abortMerge` of `git.ts`, with the raw subprocess outcome determined
by the state. -/
def abortMerge (st : GitState) : GitState × Except String Unit :=
  abortMergeWith st (gitRawAbortResult st)

/-! ## The merge command (`packages/cli/src/commands/merge.tsx`) -/

/-- The configuration fields the merge command reads (`config.ts`). -/
structure Config where
  defaultBaseBranch : String
deriving DecidableEq, Repr

/-- The combined state the command operates on: the persisted task list
and the git repository. -/
structure World where
  tasks : List Task
  git : GitState

/-- The `DiffStatsData` shape kept by the merge command. -/
structure DiffStatsData where
  totalFiles : Nat
  totalInsertions : Nat
  totalDeletions : Nat
deriving DecidableEq, Repr

/-- Where `loadTaskInfo` ends up: each `setStatus('error')` site becomes a
distinct constructor, and reaching the confirmation prompt carries the
diff statistics. -/
inductive LoadOutcome where
  | errNotFound
  | errNotActive (s : TaskStatus)
  | errDirty
  | errOther (msg : String)
  | confirm (stats : DiffStatsData)
deriving DecidableEq, Repr

/-- `loadTaskInfo` of `merge.tsx`: task lookup, `active`-status check,
uncommitted-changes check, diff statistics, confirmation.  Errors of the
git layer are caught and shown (`errOther`). -/
def loadTaskInfo (w : World) (cfg : Config) (taskSlug : String) : LoadOutcome :=
  match getTask taskSlug w.tasks with
  | none => .errNotFound
  | some t =>
    if !(t.status = .active) then .errNotActive t.status
    else
      match hasUncommittedChanges w.git taskSlug with
      | .error msg => .errOther msg
      | .ok true => .errDirty
      | .ok false =>
        match getDiffStats w.git taskSlug (some cfg.defaultBaseBranch) with
        | .error msg => .errOther msg
        | .ok stats =>
          .confirm ⟨stats.totalFiles, stats.totalInsertions, stats.totalDeletions⟩

/-- The final status a merge attempt displays. -/
inductive CmdStatus where
  | success
  | conflict
  | failed
deriving DecidableEq, Repr

/-- `handleMerge` of `merge.tsx`: run `mergeBranch`; on
`success: false` report the conflicts and stop (no status update, no
worktree removal, no abort); on success mark the task `merged` and, unless
`--no-delete`, remove the worktree; on a thrown error attempt a
best-effort `abortMerge` and surface the message. -/
def handleMerge (w : World) (o : MergeOracle) (taskSlug : String)
    (baseBranch : String) (noDelete : Bool) :
    World × CmdStatus × List String × Option String :=
  match mergeBranch w.git o taskSlug (some baseBranch) with
  | (git1, .error msg) =>
    let (git2, _) := abortMerge git1
    ({ w with git := git2 }, .failed, [], some msg)
  | (git1, .ok (success, conflicts)) =>
    if !success then ({ w with git := git1 }, .conflict, conflicts, none)
    else
      match updateTask taskSlug { status := some .merged } w.tasks with
      | (tasks2, .error _) =>
        let (git2, _) := abortMerge git1
        ({ tasks := tasks2, git := git2 }, .failed, [], some "update failed")
      | (tasks2, .ok _) =>
        if noDelete then ({ tasks := tasks2, git := git1 }, .success, [], none)
        else
          match removeWorktree git1 taskSlug with
          | (git2, .ok _) => ({ tasks := tasks2, git := git2 }, .success, [], none)
          | (git2, .error msg) =>
            let (git3, _) := abortMerge git2
            ({ tasks := tasks2, git := git3 }, .failed, [], some msg)

/-- One run of the merge command: `loadTaskInfo`, then `handleMerge` only
when the prompt was reached and the user confirmed. -/
structure MergeCmdResult where
  world : World
  load : LoadOutcome
  outcome : Option (CmdStatus × List String)
  mergeAttempted : Bool

/-- The merge command end to end. -/
def mergeCommand (w : World) (o : MergeOracle) (cfg : Config)
    (taskSlug : String) (noDelete userConfirms : Bool) : MergeCmdResult :=
  match loadTaskInfo w cfg taskSlug with
  | .confirm stats =>
    if userConfirms then
      let (w2, status, conflicts, _) :=
        handleMerge w o taskSlug cfg.defaultBaseBranch noDelete
      { world := w2, load := .confirm stats
        outcome := some (status, conflicts), mergeAttempted := true }
    else
      { world := w, load := .confirm stats, outcome := none, mergeAttempted := false }
  | other =>
    { world := w, load := other, outcome := none, mergeAttempted := false }

/-! ## Cross-task analysis (`packages/cli/src/lib/git-analysis.ts`) -/

/-- The change classification of `git-analysis.ts`. -/
inductive ChangeType where
  | added
  | modified
  | deleted
deriving DecidableEq, Repr

/-- The `FileChange` record. -/
structure FileChange where
  path : String
  type : ChangeType
  additions : Nat
  deletions : Nat
deriving DecidableEq, Repr

/-- The `TaskDiffAnalysis` record. -/
structure TaskDiffAnalysis where
  task : Task
  files : List FileChange
  totalAdditions : Nat
  totalDeletions : Nat
  fullDiff : String
deriving DecidableEq, Repr

/-- The `FileOverlap` record. -/
structure FileOverlap where
  file : String
  tasks : List String
deriving DecidableEq, Repr

/-- `Set.add`: append the element unless already present (JavaScript sets
iterate in insertion order and never hold duplicates). -/
def setInsert (s : String) (l : List String) : List String :=
  if s ∈ l then l else l ++ [s]

/-- `Map.set`/`Set.add` combined: record that task `s` touches file `f`.
A new key is appended at the end, an existing key is updated in place —
JavaScript `Map` iteration order. -/
def mapAdd (f s : String) : List (String × List String) → List (String × List String)
  | [] => [(f, [s])]
  | (k, v) :: rest =>
    if k = f then (k, setInsert s v) :: rest
    else (k, v) :: mapAdd f s rest

/-- The first loop of `getOverlappingFiles`: build the map from file path
to the set of task slugs touching it. -/
def buildFileMap (analyses : List TaskDiffAnalysis) : List (String × List String) :=
  analyses.foldl
    (fun m a => a.files.foldl (fun m2 fc => mapAdd fc.path a.task.slug m2) m)
    []

/-- `getOverlappingFiles` of `git-analysis.ts`: every map entry whose slug
set has more than one element becomes an overlap record, in map order. -/
def getOverlappingFiles (analyses : List TaskDiffAnalysis) : List FileOverlap :=
  (buildFileMap analyses).filterMap
    (fun e => if 1 < e.2.length then some ⟨e.1, e.2⟩ else none)

/-- The slugs of the analyses whose diff touches `f`, first occurrence
first — the reference value the map entry for `f` must equal. -/
def touchingSlugs (analyses : List TaskDiffAnalysis) (f : String) : List String :=
  analyses.foldl
    (fun acc a =>
      if a.files.any (fun fc => fc.path = f) then setInsert a.task.slug acc else acc)
    []

/-- `Map.get` with the empty set as default, for reasoning about the file
map. -/
def lookupD (f : String) : List (String × List String) → List String
  | [] => []
  | (k, v) :: r => if k = f then v else lookupD f r

/-- `Map.has`. -/
def hasKey (f : String) (m : List (String × List String)) : Bool :=
  m.any (fun e => e.1 = f)

/-! ## Directory sharing (`packages/cli/src/lib/symlinks.ts`) -/

/-- The filesystem facts `createSymlinks` consults, keyed by candidate
directory name (the per-directory paths are `mainRepoPath/dir` and
`worktreePath/dir`).  `symlinkFails` models `fs.symlink` raising; the
`existsSync` probes and `getDirSize` never raise in the source (both catch
internally, the latter degrading to `0`). -/
structure FsModel where
  rootHasFile : String → Bool
  srcExists : String → Bool
  destExists : String → Bool
  dirSize : String → Nat
  symlinkFails : String → Bool

/-- The `PROJECT_DETECTORS` table, in `Object.entries` order: marker files
and the directories each ecosystem shares. -/
def projectDetectors : List (List String × List String) :=
  [ (["package.json"],
     ["node_modules", ".next", ".turbo", "dist", ".output", ".nuxt", ".svelte-kit"]),
    (["requirements.txt", "pyproject.toml", "Pipfile", "setup.py"],
     ["venv", ".venv", "__pycache__", ".pytest_cache", ".mypy_cache"]),
    (["Cargo.toml"], ["target"]),
    (["go.mod"], ["vendor"]),
    (["build.gradle", "pom.xml"], [".gradle", "build", "target"]),
    (["Podfile"], ["Pods"]),
    ([], ["build", ".cache"]) ]

/-- The candidate set of `createSymlinks`: the directories of every
detector whose marker list is empty or has a present marker, then the
user-configured extras — a `Set`, so insertion-ordered and duplicate-free. -/
def dirsToSymlink (fs : FsModel) (customSymlinks : List String) : List String :=
  let detected := projectDetectors.foldl
    (fun acc cfg =>
      if cfg.1.isEmpty || cfg.1.any fs.rootHasFile then
        cfg.2.foldl (fun a d => setInsert d a) acc
      else acc)
    []
  customSymlinks.foldl (fun a d => setInsert d a) detected

/-- The `SymlinkResult` record. -/
structure SymlinkResult where
  created : List String
  skipped : List String
  savedBytes : Nat
deriving DecidableEq, Repr

/-- The loop body of `createSymlinks` for one candidate directory: skip
when the source is missing or the destination present; otherwise take the
source size, link, and account the bytes — any error (only `fs.symlink`
can raise) degrades to a skip. -/
def symlinkStep (fs : FsModel) (res : SymlinkResult) (dir : String) : SymlinkResult :=
  if !(fs.srcExists dir) then { res with skipped := res.skipped ++ [dir] }
  else if fs.destExists dir then { res with skipped := res.skipped ++ [dir] }
  else if fs.symlinkFails dir then { res with skipped := res.skipped ++ [dir] }
  else
    { res with
      created := res.created ++ [dir]
      savedBytes := res.savedBytes + fs.dirSize dir }

/-- `createSymlinks` of `symlinks.ts`. -/
def createSymlinks (fs : FsModel) (customSymlinks : List String) : SymlinkResult :=
  (dirsToSymlink fs customSymlinks).foldl (symlinkStep fs)
    { created := [], skipped := [], savedBytes := 0 }

/-! ## Concrete sample states used by the witnesses -/

/-- A well-formed sample task. -/
def sampleTask : Task :=
  { slug := "fix-login-bug"
    description := "Fix the login bug"
    branch := "hive/fix-login-bug"
    worktreePath := "/repo/.worktrees/fix-login-bug"
    createdAt := "2025-01-01T00:00:00.000Z"
    status := .active }

/-- A second well-formed sample task on another slug. -/
def sampleTask2 : Task :=
  { slug := "add-dark-mode"
    description := "Add dark mode"
    branch := "hive/add-dark-mode"
    worktreePath := "/repo/.worktrees/add-dark-mode"
    createdAt := "2025-01-02T00:00:00.000Z"
    status := .active }

/-- The worktree record of `sampleTask`. -/
def sampleWorktree : WorktreeInfo :=
  { slug := "fix-login-bug"
    path := "/repo/.worktrees/fix-login-bug"
    branch := "hive/fix-login-bug"
    head := "abc123"
    detached := false }

/-- A sample git state: a repository with the main working copy on `main`
and one clean task worktree; the file `app.ts` holds `v1` everywhere. -/
def sampleGit : GitState :=
  { isRepo := true
    worktrees := [⟨"main", "/repo", "main", "def456", false⟩, sampleWorktree]
    localBranches := ["main", "hive/fix-login-bug"]
    currentBranch := "main"
    defaultBranch := "main"
    mergeInProgress := false
    cleanWorktree := fun _ => true
    fileUniverse := ["app.ts"]
    tipContent := fun _ _ => some "v1"
    workingContent := fun _ _ => some "v1"
    headContent := fun _ _ => some "v1"
    mergeBaseContent := fun _ _ _ => some "v1" }

/-- `sampleGit` after the base branch advanced: the tip of `main` holds
`v2` while the task worktree (its working tree, its `HEAD`, and the merge
base) still holds `v1` — no commits unique to the task branch. -/
def sampleGitBaseAhead : GitState :=
  { sampleGit with tipContent := fun _ _ => some "v2" }

/-- A dirty variant of `sampleGit`: the task worktree has uncommitted
changes. -/
def sampleGitDirty : GitState :=
  { sampleGit with
    cleanWorktree := fun p => !(p = "/repo/.worktrees/fix-login-bug") }

/-- A sample filesystem for the symlink pass: a node project whose
`node_modules` (1000 bytes) can be linked, whose `dist` link raises, and
whose `.cache` already exists in the worktree. -/
def sampleFs : FsModel :=
  { rootHasFile := fun f => f = "package.json"
    srcExists := fun d => d = "node_modules" || d = "dist" || d = ".cache"
    destExists := fun d => d = ".cache"
    dirSize := fun d => if d = "node_modules" then 1000 else 50
    symlinkFails := fun d => d = "dist" }

/-! ## Task-registry lemmas and claims -/

/-- `updateTaskGo` over a record whose slug does not match. -/
theorem updateTaskGo_cons_neg (u : TaskUpdates) (slug : String) (x : Task)
    (rest : List Task) (hx : ¬ x.slug = slug) :
    updateTaskGo slug u (x :: rest) =
      match updateTaskGo slug u rest with
      | .error e => .error e
      | .ok (ts2, t2) => .ok (x :: ts2, t2) := by
  simp [updateTaskGo, hx]

/-- `updateTaskGo` skips a prefix of records none of which carries the
searched slug. -/
theorem updateTaskGo_append (u : TaskUpdates) (pre post : List Task) (t : Task)
    (hfirst : ∀ x ∈ pre, ¬ x.slug = t.slug) :
    updateTaskGo t.slug u (pre ++ t :: post) =
      match updateTaskGo t.slug u (t :: post) with
      | .error e => .error e
      | .ok (ts2, t2) => .ok (pre ++ ts2, t2) := by
  induction pre with
  | nil =>
    cases h : updateTaskGo t.slug u (t :: post) with
    | error e => simp [h]
    | ok p => cases p with | mk ts2 t2 => simp [h]
  | cons x xs ih =>
    have hx : ¬ x.slug = t.slug := hfirst x (by simp)
    have ih2 := ih (fun y hy => hfirst y (by simp [hy]))
    rw [List.cons_append, updateTaskGo_cons_neg u t.slug x _ hx, ih2]
    cases h : updateTaskGo t.slug u (t :: post) with
    | error e => simp
    | ok p => cases p with | mk ts2 t2 => simp

/-- `updateTaskGo` at the matching head record. -/
theorem updateTaskGo_head (u : TaskUpdates) (post : List Task) (t : Task) :
    updateTaskGo t.slug u (t :: post) =
      if slugChangeRejected t.slug u then .error .immutableSlug
      else
        match validateTask (applyUpdates t u) with
        | .error e => .error e
        | .ok _ => .ok (applyUpdates t u :: post, applyUpdates t u) := by
  simp [updateTaskGo]

/-- Validation never inspects the status field. -/
theorem validateTask_set_status (t : Task) (s : TaskStatus) :
    validateTask { t with status := s } = validateTask t := rfl

/-- **C5.** For every valid task `t`, a successful `addTask t` followed by
`getTask t.slug` returns a record equal to `t`; and when the stored list
already holds a task with slug `t.slug`, `addTask t` fails with the
duplicate-slug error and leaves the stored list unchanged. -/
theorem addTask_then_getTask (t : Task) (store : List Task)
    (hv : validateTask t = .ok ()) :
    ((∀ x ∈ store, ¬ x.slug = t.slug) →
      (addTask t store).2 = .ok t ∧
      getTask t.slug (addTask t store).1 = some t)
    ∧ ((∃ x ∈ store, x.slug = t.slug) →
      (addTask t store).2 = .error (.duplicateSlug t.slug) ∧
      (addTask t store).1 = store) := by
  constructor
  · intro hno
    have hany : (store.any fun x => x.slug = t.slug) = false := by
      simp only [List.any_eq_false, decide_eq_true_eq]
      exact hno
    have hfind : store.find? (fun x => x.slug = t.slug) = none := by
      simp only [List.find?_eq_none, decide_eq_true_eq]
      exact hno
    refine ⟨by simp [addTask, hv, hany], ?_⟩
    simp [addTask, hv, hany, getTask, List.find?_append, hfind]
  · intro hyes
    have hany : (store.any fun x => x.slug = t.slug) = true := by
      simp only [List.any_eq_true, decide_eq_true_eq]
      exact hyes
    exact ⟨by simp [addTask, hv, hany], by simp [addTask, hv, hany]⟩

/-- `validateTask` never produces the immutable-slug error. -/
theorem validateTask_not_immutable (x : Task) :
    ¬ validateTask x = .error .immutableSlug := by
  unfold validateTask
  split_ifs <;> simp

/-- **C6 (amended).** For every stored valid task, updating the status to
`merged` changes only the status field and leaves every other task
unchanged; an update carrying a non-empty slug different from the stored
one fails with the immutable-field error; an update carrying a present
empty-string slug slips past the truthiness guard and fails slug
validation instead.  In every failing case the store is unchanged. -/
theorem updateTask_frame_spec (pre post : List Task) (t : Task) (other : String)
    (hfirst : ∀ x ∈ pre, ¬ x.slug = t.slug)
    (hv : validateTask t = .ok ()) :
    updateTask t.slug { status := some .merged } (pre ++ t :: post)
      = (pre ++ { t with status := .merged } :: post,
          .ok { t with status := .merged })
    ∧ (¬ other = "" → ¬ other = t.slug →
      updateTask t.slug { slug := some other } (pre ++ t :: post)
        = (pre ++ t :: post, .error .immutableSlug))
    ∧ updateTask t.slug { slug := some "" } (pre ++ t :: post)
      = (pre ++ t :: post, .error (.invalidField "slug")) := by
  refine ⟨?_, ?_, ?_⟩
  · have hgo : updateTaskGo t.slug { status := some .merged } (t :: post)
        = .ok ({ t with status := .merged } :: post, { t with status := .merged }) := by
      rw [updateTaskGo_head]
      have hrej : slugChangeRejected t.slug { status := some .merged } = false := rfl
      have happ : applyUpdates t { status := some .merged }
          = { t with status := .merged } := rfl
      rw [hrej, happ, validateTask_set_status, hv]
      simp
    simp [updateTask, updateTaskGo_append _ pre post t hfirst, hgo]
  · intro h1 h2
    have hgo : updateTaskGo t.slug { slug := some other } (t :: post)
        = .error .immutableSlug := by
      rw [updateTaskGo_head]
      have hrej : slugChangeRejected t.slug { slug := some other } = true := by
        simp [slugChangeRejected, h1, h2]
      rw [hrej]
      simp
    simp [updateTask, updateTaskGo_append _ pre post t hfirst, hgo]
  · have hgo : updateTaskGo t.slug { slug := some "" } (t :: post)
        = .error (.invalidField "slug") := by
      rw [updateTaskGo_head]
      have hrej : slugChangeRejected t.slug { slug := some "" } = false := by
        simp [slugChangeRejected]
      have hval : validateTask (applyUpdates t { slug := some "" })
          = .error (.invalidField "slug") := by
        simp [applyUpdates, validateTask]
      rw [hrej, hval]
      simp
    simp [updateTask, updateTaskGo_append _ pre post t hfirst, hgo]

/-- Counterexample for C6 as stated: the update `{slug: ''}` carries a
slug different from the stored `"fix-login-bug"`, yet fails with the
validation error, not the immutable-field error (the record is still left
unchanged). -/
theorem updateTask_empty_slug_counterexample :
    ¬ ("" = sampleTask.slug) ∧
    (updateTask sampleTask.slug { slug := some "" } [sampleTask])
      = ([sampleTask], .error (.invalidField "slug")) ∧
    ¬ ((updateTask sampleTask.slug { slug := some "" } [sampleTask]).2
      = .error .immutableSlug) := by
  refine ⟨by decide, by rfl, ?_⟩
  intro h
  rw [show (updateTask sampleTask.slug { slug := some "" } [sampleTask]).2
      = .error (.invalidField "slug") from rfl] at h
  simp at h

/-- Witness for C6 (amended) at a concrete store of two tasks. -/
theorem updateTask_frame_spec_witness :
    updateTask sampleTask.slug { status := some .merged }
        ([sampleTask2] ++ sampleTask :: [])
      = ([sampleTask2] ++ { sampleTask with status := .merged } :: [],
          .ok { sampleTask with status := .merged })
    ∧ updateTask sampleTask.slug { slug := some "other-slug" }
        ([sampleTask2] ++ sampleTask :: [])
      = ([sampleTask2] ++ sampleTask :: [], .error .immutableSlug) := by
  have h := updateTask_frame_spec [sampleTask2] [] sampleTask "other-slug"
    (by decide) (by rfl)
  exact ⟨h.1, h.2.1 (by decide) (by decide)⟩

/-- **C10.** An update whose present slug equals the stored slug is not
rejected by the immutable-slug rule and proceeds; no update whose slug
field does not differ from the stored slug (present-and-equal or absent)
ever fails with the immutable-field error. -/
theorem updateTask_same_slug_ok (pre post : List Task) (t : Task) (u : TaskUpdates)
    (hfirst : ∀ x ∈ pre, ¬ x.slug = t.slug)
    (hu : u.slug = some t.slug)
    (hv : validateTask (applyUpdates t u) = .ok ()) :
    updateTask t.slug u (pre ++ t :: post)
      = (pre ++ applyUpdates t u :: post, .ok (applyUpdates t u))
    ∧ ∀ u2 : TaskUpdates, (u2.slug = some t.slug ∨ u2.slug = none) →
      ¬ ((updateTask t.slug u2 (pre ++ t :: post)).2 = .error .immutableSlug) := by
  constructor
  · have hrej : slugChangeRejected t.slug u = false := by
      simp [slugChangeRejected, hu]
    have hgo : updateTaskGo t.slug u (t :: post)
        = .ok (applyUpdates t u :: post, applyUpdates t u) := by
      rw [updateTaskGo_head, hrej, hv]
      simp
    simp [updateTask, updateTaskGo_append _ pre post t hfirst, hgo]
  · intro u2 hu2 habs
    have hrej : slugChangeRejected t.slug u2 = false := by
      rcases hu2 with h | h <;> simp [slugChangeRejected, h]
    rw [updateTask, updateTaskGo_append _ pre post t hfirst, updateTaskGo_head, hrej] at habs
    simp only [if_false, Bool.false_eq_true] at habs
    rcases hval : validateTask (applyUpdates t u2) with e | _
    · rw [hval] at habs
      simp at habs
      exact validateTask_not_immutable (applyUpdates t u2) (by rw [hval, habs])
    · rw [hval] at habs
      simp at habs

/-- Witness for C10: a present-and-equal slug together with a new
description is applied. -/
theorem updateTask_same_slug_ok_witness :
    updateTask sampleTask.slug
        { slug := some sampleTask.slug, description := some "Rework login" }
        ([] ++ sampleTask :: [sampleTask2])
      = ([] ++ { sampleTask with description := "Rework login" } :: [sampleTask2],
          .ok { sampleTask with description := "Rework login" })
    ∧ ¬ ((updateTask sampleTask.slug { slug := some sampleTask.slug }
        ([] ++ sampleTask :: [sampleTask2])).2 = .error .immutableSlug) := by
  have h := updateTask_same_slug_ok [] [sampleTask2] sampleTask
    { slug := some sampleTask.slug, description := some "Rework login" }
    (by simp) (by rfl) (by rfl)
  exact ⟨h.1, h.2 { slug := some sampleTask.slug } (Or.inl rfl)⟩

/-- Witness for C5 at a concrete task and store. -/
theorem addTask_then_getTask_witness :
    ((addTask sampleTask []).2 = .ok sampleTask ∧
      getTask sampleTask.slug (addTask sampleTask []).1 = some sampleTask)
    ∧ ((addTask sampleTask [sampleTask2, sampleTask]).2 =
        .error (.duplicateSlug sampleTask.slug) ∧
      (addTask sampleTask [sampleTask2, sampleTask]).1 = [sampleTask2, sampleTask]) :=
  ⟨(addTask_then_getTask sampleTask [] (by rfl)).1 (by simp),
   (addTask_then_getTask sampleTask [sampleTask2, sampleTask] (by rfl)).2
     ⟨sampleTask, by simp⟩⟩

/-! ## Slug-generation lemmas and claim C7 -/

/-- A character of a space-collapsed list is either the introduced hyphen
or a non-whitespace character of the input. -/
theorem mem_collapseSpacesGo (c : Char) (l : List Char) :
    ∀ b, c ∈ collapseSpacesGo b l → c = '-' ∨ (c ∈ l ∧ isJsSpace c = false) := by
  induction l with
  | nil => intro b h; simp [collapseSpacesGo] at h
  | cons x xs ih =>
    intro b h
    by_cases hx : isJsSpace x = true
    · rw [collapseSpacesGo, if_pos hx] at h
      by_cases hb : b = true
      · subst hb
        simp only [if_true] at h
        rcases ih true h with h1 | ⟨h2, h3⟩
        · exact Or.inl h1
        · exact Or.inr ⟨List.mem_cons_of_mem _ h2, h3⟩
      · have hb2 : b = false := by
          cases b
          · rfl
          · exact absurd rfl hb
        subst hb2
        simp only [Bool.false_eq_true, if_false, List.mem_cons] at h
        rcases h with h | h
        · exact Or.inl h
        · rcases ih true h with h1 | ⟨h2, h3⟩
          · exact Or.inl h1
          · exact Or.inr ⟨List.mem_cons_of_mem _ h2, h3⟩
    · rw [collapseSpacesGo, if_neg hx] at h
      rcases List.mem_cons.1 h with h | h
      · subst h
        exact Or.inr ⟨List.mem_cons_self _ _, by
          cases hcx : isJsSpace c
          · rfl
          · exact absurd hcx hx⟩
      · rcases ih false h with h1 | ⟨h2, h3⟩
        · exact Or.inl h1
        · exact Or.inr ⟨List.mem_cons_of_mem _ h2, h3⟩

/-- A non-whitespace character of the input survives space collapsing. -/
theorem mem_collapseSpacesGo_of_mem (c : Char) (l : List Char)
    (hp : isJsSpace c = false) :
    ∀ b, c ∈ l → c ∈ collapseSpacesGo b l := by
  induction l with
  | nil => intro b h; simp at h
  | cons x xs ih =>
    intro b h
    by_cases hx : isJsSpace x = true
    · have hcx : ¬ c = x := fun he => by rw [he, hx] at hp; cases hp
      have hmem : c ∈ xs := by
        rcases List.mem_cons.1 h with h1 | h1
        · exact absurd h1 hcx
        · exact h1
      rw [collapseSpacesGo, if_pos hx]
      by_cases hb : b = true
      · subst hb; simp only [if_true]; exact ih true hmem
      · have hb2 : b = false := by
          cases b
          · rfl
          · exact absurd rfl hb
        subst hb2
        simp only [Bool.false_eq_true, if_false]
        exact List.mem_cons_of_mem _ (ih true hmem)
    · rw [collapseSpacesGo, if_neg hx]
      rcases List.mem_cons.1 h with h1 | h1
      · subst h1; exact List.mem_cons_self _ _
      · exact List.mem_cons_of_mem _ (ih false h1)

/-- Trimming only removes characters. -/
theorem mem_of_mem_trimChars (c : Char) (l : List Char) (h : c ∈ trimChars l) :
    c ∈ l := by
  unfold trimChars at h
  have h1 := (List.dropWhile_sublist isJsSpace).subset
    (List.mem_reverse.1 h)
  have h2 := (List.dropWhile_sublist isJsSpace).subset (List.mem_reverse.1 h1)
  exact h2

/-- A non-whitespace character of the input survives trimming. -/
theorem mem_dropWhile_of_neg (p : Char → Bool) (c : Char) (l : List Char)
    (hp : p c = false) (hc : c ∈ l) : c ∈ l.dropWhile p := by
  induction l with
  | nil => simp at hc
  | cons x xs ih =>
    by_cases hx : p x = true
    · rw [List.dropWhile_cons_of_pos hx]
      rcases List.mem_cons.1 hc with h1 | h1
      · subst h1; rw [hp] at hx; cases hx
      · exact ih h1
    · rw [List.dropWhile_cons_of_neg hx]
      exact hc

/-- A non-whitespace character of the input survives trimming. -/
theorem mem_trimChars_of_mem (c : Char) (l : List Char)
    (hp : isJsSpace c = false) (hc : c ∈ l) : c ∈ trimChars l := by
  unfold trimChars
  rw [List.mem_reverse]
  apply mem_dropWhile_of_neg _ _ _ hp
  rw [List.mem_reverse]
  apply mem_dropWhile_of_neg _ _ _ hp
  exact hc

/-- The character-class facts about the concrete alphabets, discharged by
evaluation. -/
theorem asciiAlnum_facts :
    (∀ c ∈ asciiAlnumChars, isSlugChar (asciiToLower c) = true) ∧
    (∀ c ∈ asciiAlnumChars, slugifyMapChar c = [c]) ∧
    (∀ c ∈ asciiAlnumChars, isJsSpace c = false) ∧
    isSlugChar (asciiToLower '-') = true := by
  refine ⟨by decide, by decide, by decide, by decide⟩

/-- Every character of the slugified string is a slug character. -/
theorem slugifyCore_chars (s : List Char) :
    ∀ c ∈ slugifyCore s, isSlugChar c = true := by
  intro c hc
  unfold slugifyCore at hc
  rcases List.mem_map.1 hc with ⟨d, hd, hdc⟩
  subst hdc
  rcases mem_collapseSpacesGo d _ false hd with h1 | ⟨h2, h3⟩
  · rw [h1]; exact asciiAlnum_facts.2.2.2
  · have h4 := mem_of_mem_trimChars d _ h2
    rcases List.mem_filter.1 h4 with ⟨_, h5⟩
    have h6 : d ∈ asciiAlnumChars := by
      rcases Bool.or_eq_true_iff.1 h5 with h | h
      · exact of_decide_eq_true h
      · rw [h] at h3; cases h3
    exact asciiAlnum_facts.1 d h6

/-- An ASCII alphanumeric character of the description survives the whole
slugify pipeline (lower-cased). -/
theorem asciiToLower_mem_slugifyCore (s : List Char) (c : Char)
    (hc : c ∈ s) (hcal : c ∈ asciiAlnumChars) :
    asciiToLower c ∈ slugifyCore s := by
  have hspace : isJsSpace c = false := asciiAlnum_facts.2.2.1 c hcal
  have h1 : c ∈ s.flatMap slugifyMapChar := by
    apply List.mem_flatMap_of_mem hc
    rw [asciiAlnum_facts.2.1 c hcal]
    simp
  have h2 : c ∈ (s.flatMap slugifyMapChar).filter
      (fun c => c ∈ asciiAlnumChars || isJsSpace c) := by
    apply List.mem_filter.2
    exact ⟨h1, Bool.or_eq_true_iff.2 (Or.inl (decide_eq_true hcal))⟩
  have h3 := mem_trimChars_of_mem c _ hspace h2
  have h4 := mem_collapseSpacesGo_of_mem c _ hspace false h3
  exact List.mem_map_of_mem asciiToLower h4

/-- `lastIndexOfChar` returns a valid index whose entry is the sought
character. -/
theorem lastIndexOfChar_spec (c : Char) (l : List Char) (i : Nat)
    (h : lastIndexOfChar c l = some i) :
    ∃ hi : i < l.length, l.get ⟨i, hi⟩ = c := by
  induction l generalizing i with
  | nil => cases h
  | cons x xs ih =>
    rw [lastIndexOfChar] at h
    cases hxs : lastIndexOfChar c xs with
    | some j =>
      rw [hxs] at h
      have hji : j + 1 = i := Option.some.inj h
      obtain ⟨hj, hget⟩ := ih j hxs
      subst hji
      exact ⟨Nat.succ_lt_succ hj, by simpa using hget⟩
    | none =>
      rw [hxs] at h
      by_cases hx : x = c
      · rw [if_pos hx] at h
        have h0 : (0 : Nat) = i := Option.some.inj h
        subst h0
        exact ⟨Nat.succ_pos _, hx⟩
      · rw [if_neg hx] at h
        cases h

/-- Every character of `generateSlugList` comes from the slugified
string. -/
theorem mem_slugifyCore_of_mem_generateSlugList (s : List Char) (d : Char)
    (hd : d ∈ generateSlugList s) : d ∈ slugifyCore s := by
  unfold generateSlugList at hd
  by_cases hle : (slugifyCore s).length ≤ 50
  · rwa [if_pos hle] at hd
  · rw [if_neg hle] at hd
    split at hd
    · split at hd
      · exact List.take_subset _ _ (List.take_subset _ _ hd)
      · exact List.take_subset _ _ hd
    · exact List.take_subset _ _ hd

/-- `generateSlugList` is never empty when the slugified string is not. -/
theorem generateSlugList_ne_nil (s : List Char)
    (hne : ¬ slugifyCore s = []) : ¬ generateSlugList s = [] := by
  have hpos : 0 < (slugifyCore s).length := List.length_pos.2 hne
  unfold generateSlugList
  by_cases hle : (slugifyCore s).length ≤ 50
  · rw [if_pos hle]; exact hne
  · rw [if_neg hle]
    have h50 : (50 : Nat) ≤ (slugifyCore s).length :=
      Nat.le_of_lt (Nat.lt_of_not_le hle)
    have hlen : ((slugifyCore s).take 50).length = 50 := by
      rw [List.length_take]
      exact Nat.min_eq_left h50
    split
    · split
      · next i _ hi =>
        intro habs
        have hlenabs := congrArg List.length habs
        rw [List.length_take, hlen] at hlenabs
        simp only [List.length_nil] at hlenabs
        rcases Nat.min_eq_zero_iff.1 hlenabs with h | h
        · exact Nat.lt_irrefl 0 (h ▸ hi)
        · cases h
      · intro habs
        rw [habs] at hlen
        cases hlen
    · intro habs
      rw [habs] at hlen
      cases hlen

/-- **C7.** For every description holding at least one ASCII alphanumeric
character, `generateSlug` matches `^[a-z0-9-]+$`, has length at most 50,
and when the un-truncated slug exceeds 50 characters and its first 50
characters hold a hyphen after position 0, the output is the un-truncated
slug cut exactly at a hyphen boundary (the full slug is the output,
a hyphen, then the remainder). -/
theorem generateSlug_spec (description : String)
    (hvalid : ∃ c ∈ description.toList, c ∈ asciiAlnumChars) :
    slugPatternMatches (generateSlug description) = true
    ∧ (generateSlug description).length ≤ 50
    ∧ ∀ i, 50 < (slugifyCore description.toList).length →
        lastIndexOfChar '-' ((slugifyCore description.toList).take 50) = some i →
        0 < i →
        ∃ rest, slugifyCore description.toList
          = (generateSlug description).toList ++ '-' :: rest := by
  obtain ⟨c, hcs, hcal⟩ := hvalid
  have hmem := asciiToLower_mem_slugifyCore description.toList c hcs hcal
  have hne : ¬ slugifyCore description.toList = [] := by
    intro h; rw [h] at hmem; cases hmem
  have htl : (generateSlug description).toList = generateSlugList description.toList :=
    rfl
  refine ⟨?_, ?_, ?_⟩
  · have hout_ne : ¬ generateSlugList description.toList = [] :=
      generateSlugList_ne_nil _ hne
    have h1 : (decide (generateSlug description = "")) = false := by
      apply decide_eq_false
      intro habs
      exact hout_ne (congrArg String.data habs)
    have h2 : (generateSlug description).toList.all isSlugChar = true := by
      rw [List.all_eq_true]
      intro d hd
      exact slugifyCore_chars _ d
        (mem_slugifyCore_of_mem_generateSlugList _ d (htl ▸ hd))
    rw [slugPatternMatches, h1, h2]
    rfl
  · have hlen : (generateSlug description).length
        = (generateSlugList description.toList).length := rfl
    rw [hlen]
    unfold generateSlugList
    by_cases hle : (slugifyCore description.toList).length ≤ 50
    · rw [if_pos hle]; exact hle
    · rw [if_neg hle]
      split
      · split
        · exact Nat.le_trans (List.length_take_le' _ _) (List.length_take_le _ _)
        · exact List.length_take_le _ _
      · exact List.length_take_le _ _
  · intro i hgt hlast hi
    have hnle : ¬ (slugifyCore description.toList).length ≤ 50 := Nat.not_le.2 hgt
    have hout : generateSlugList description.toList
        = ((slugifyCore description.toList).take 50).take i := by
      unfold generateSlugList
      rw [if_neg hnle, hlast]
      exact if_pos hi
    obtain ⟨hi50, hget⟩ := lastIndexOfChar_spec '-' _ i hlast
    have hlen50 : ((slugifyCore description.toList).take 50).length = 50 := by
      rw [List.length_take]
      exact Nat.min_eq_left (Nat.le_of_lt hgt)
    have hilt : i < 50 := hlen50 ▸ hi50
    have hislug : i < (slugifyCore description.toList).length :=
      Nat.lt_trans hilt hgt
    have hgetslug : (slugifyCore description.toList).get ⟨i, hislug⟩ = '-' := by
      rw [← hget]
      simp only [List.get_eq_getElem, List.getElem_take]
    have houttake : generateSlugList description.toList
        = (slugifyCore description.toList).take i := by
      rw [hout, List.take_take, Nat.min_eq_left (Nat.le_of_lt hilt)]
    refine ⟨(slugifyCore description.toList).drop (i + 1), ?_⟩
    rw [htl, houttake]
    conv_lhs => rw [← List.take_append_drop i (slugifyCore description.toList)]
    rw [List.drop_eq_getElem_cons hislug]
    congr 1
    rw [← hgetslug]
    rfl

/-- Witness for C7 at a long description that forces truncation at a
hyphen boundary. -/
theorem generateSlug_spec_witness :
    slugPatternMatches (generateSlug
      "Add OAuth2 support for Google and GitHub accounts in the settings page")
      = true
    ∧ (generateSlug
        "Add OAuth2 support for Google and GitHub accounts in the settings page").length
        ≤ 50
    ∧ ∃ rest,
        slugifyCore
          ("Add OAuth2 support for Google and GitHub accounts in the settings page").toList
        = (generateSlug
            "Add OAuth2 support for Google and GitHub accounts in the settings page").toList
          ++ '-' :: rest := by
  have h := generateSlug_spec
    "Add OAuth2 support for Google and GitHub accounts in the settings page"
    (by decide)
  exact ⟨h.1, h.2.1, h.2.2 49 (by decide) (by rfl) (by decide)⟩

/-! ## Merge-layer claims -/

/-- **C1.** When the underlying merge fails with a non-empty conflicted
file list, `mergeBranch` returns `success: false` with that list, and the
command's conflict path leaves everything alone: the stored tasks (hence
the task's `active` status), the worktree listing and the local branches
are unchanged, and the merge is left in progress — no automatic abort. -/
theorem handleMerge_conflict_spec (w : World) (o : MergeOracle) (slug base : String)
    (noDelete : Bool) (wt : WorktreeInfo)
    (hrepo : w.git.isRepo = true)
    (hwt : w.git.worktrees.find? (fun x => x.slug = slug) = some wt)
    (hfail : o.mergeSucceeds = false)
    (hconf : ¬ o.conflictedAfterFail = []) :
    (mergeBranch w.git o slug (some base)).2 = .ok (false, o.conflictedAfterFail)
    ∧ (handleMerge w o slug base noDelete).2.1 = .conflict
    ∧ (handleMerge w o slug base noDelete).2.2.1 = o.conflictedAfterFail
    ∧ ¬ (handleMerge w o slug base noDelete).2.2.1 = []
    ∧ (handleMerge w o slug base noDelete).1.tasks = w.tasks
    ∧ (handleMerge w o slug base noDelete).1.git.worktrees = w.git.worktrees
    ∧ (handleMerge w o slug base noDelete).1.git.localBranches = w.git.localBranches
    ∧ (handleMerge w o slug base noDelete).1.git.mergeInProgress = true := by
  by_cases hc : w.git.currentBranch = base
  · have hmb : mergeBranch w.git o slug (some base)
        = ({ w.git with mergeInProgress := true }, .ok (false, o.conflictedAfterFail)) := by
      simp [mergeBranch, hrepo, hwt, hfail, hconf, hc]
    refine ⟨by rw [hmb], ?_, ?_, ?_, ?_, ?_, ?_, ?_⟩ <;>
      simp [handleMerge, hmb, hconf]
  · have hmb : mergeBranch w.git o slug (some base)
        = ({ w.git with currentBranch := base, mergeInProgress := true },
            .ok (false, o.conflictedAfterFail)) := by
      simp [mergeBranch, hrepo, hwt, hfail, hconf, hc]
    refine ⟨by rw [hmb], ?_, ?_, ?_, ?_, ?_, ?_, ?_⟩ <;>
      simp [handleMerge, hmb, hconf]

/-- Witness for C1: a conflicted merge of the sample task leaves the
sample world untouched and the merge unresolved. -/
theorem handleMerge_conflict_spec_witness :
    (mergeBranch sampleGit ⟨false, ["app.ts"]⟩ "fix-login-bug" (some "main")).2
      = .ok (false, ["app.ts"])
    ∧ (handleMerge ⟨[sampleTask], sampleGit⟩ ⟨false, ["app.ts"]⟩
        "fix-login-bug" "main" false).2.1 = .conflict
    ∧ (handleMerge ⟨[sampleTask], sampleGit⟩ ⟨false, ["app.ts"]⟩
        "fix-login-bug" "main" false).1.tasks = [sampleTask]
    ∧ (handleMerge ⟨[sampleTask], sampleGit⟩ ⟨false, ["app.ts"]⟩
        "fix-login-bug" "main" false).1.git.worktrees = sampleGit.worktrees
    ∧ (handleMerge ⟨[sampleTask], sampleGit⟩ ⟨false, ["app.ts"]⟩
        "fix-login-bug" "main" false).1.git.mergeInProgress = true := by
  have h := handleMerge_conflict_spec ⟨[sampleTask], sampleGit⟩
    ⟨false, ["app.ts"]⟩ "fix-login-bug" "main" false sampleWorktree
    (by rfl) (by rfl) (by rfl) (by simp)
  exact ⟨h.1, h.2.1, h.2.2.2.2.1, h.2.2.2.2.2.1, h.2.2.2.2.2.2.2⟩

/-- **C2.** The merge command attempts a merge only for an `active` task
with a clean worktree: a `merged`/`dropped` task stops at the
invalid-state error and a dirty worktree at the dirty error, in both cases
with no merge attempted and the world unchanged. -/
theorem mergeCommand_precondition_spec (w : World) (o : MergeOracle) (cfg : Config)
    (slug : String) (noDelete confirm : Bool) (t : Task)
    (ht : getTask slug w.tasks = some t) :
    ((t.status = .merged ∨ t.status = .dropped) →
      (mergeCommand w o cfg slug noDelete confirm).load = .errNotActive t.status
      ∧ (mergeCommand w o cfg slug noDelete confirm).mergeAttempted = false
      ∧ (mergeCommand w o cfg slug noDelete confirm).world = w)
    ∧ (t.status = .active → hasUncommittedChanges w.git slug = .ok true →
      (mergeCommand w o cfg slug noDelete confirm).load = .errDirty
      ∧ (mergeCommand w o cfg slug noDelete confirm).mergeAttempted = false
      ∧ (mergeCommand w o cfg slug noDelete confirm).world = w) := by
  constructor
  · intro hstatus
    have hstat : ¬ (t.status = .active) := by
      rcases hstatus with h | h <;> rw [h] <;> intro habs <;> cases habs
    have hload : loadTaskInfo w cfg slug = .errNotActive t.status := by
      simp [loadTaskInfo, ht, hstat]
    refine ⟨?_, ?_, ?_⟩ <;> simp [mergeCommand, hload]
  · intro hstatus hdirty
    have hload : loadTaskInfo w cfg slug = .errDirty := by
      simp [loadTaskInfo, ht, hstatus, hdirty]
    refine ⟨?_, ?_, ?_⟩ <;> simp [mergeCommand, hload]

/-- Witness for C2: a `merged` task and a dirty `active` task both stop
before any merge. -/
theorem mergeCommand_precondition_spec_witness :
    ((mergeCommand ⟨[{ sampleTask with status := .merged }], sampleGit⟩
        ⟨true, []⟩ ⟨"main"⟩ "fix-login-bug" false true).load
      = .errNotActive .merged
    ∧ (mergeCommand ⟨[{ sampleTask with status := .merged }], sampleGit⟩
        ⟨true, []⟩ ⟨"main"⟩ "fix-login-bug" false true).mergeAttempted = false)
    ∧ ((mergeCommand ⟨[sampleTask], sampleGitDirty⟩
        ⟨true, []⟩ ⟨"main"⟩ "fix-login-bug" false true).load = .errDirty
    ∧ (mergeCommand ⟨[sampleTask], sampleGitDirty⟩
        ⟨true, []⟩ ⟨"main"⟩ "fix-login-bug" false true).mergeAttempted = false) := by
  have h1 := mergeCommand_precondition_spec
    ⟨[{ sampleTask with status := .merged }], sampleGit⟩ ⟨true, []⟩ ⟨"main"⟩
    "fix-login-bug" false true { sampleTask with status := .merged } (by rfl)
  have h2 := mergeCommand_precondition_spec
    ⟨[sampleTask], sampleGitDirty⟩ ⟨true, []⟩ ⟨"main"⟩
    "fix-login-bug" false true sampleTask (by rfl)
  have ha := h1.1 (Or.inl rfl)
  have hb := h2.2 rfl (by rfl)
  exact ⟨⟨ha.1, ha.2.1⟩, ⟨hb.1, hb.2.1⟩⟩

/-- **C4.** Evaluating `abortMerge` at a repository with no merge in
progress: the swallow clause tests for the substring
`'no merge in progress'`, which git's actual message "There is no merge to
abort (MERGE_HEAD missing)." does not contain, so instead of completing
idempotently the call surfaces `GitError('Failed to abort merge')`. -/
theorem abortMerge_no_merge_raises :
    sampleGit.mergeInProgress = false
    ∧ abortMerge sampleGit = (sampleGit, .error "Failed to abort merge")
    ∧ msgIncludes "fatal: There is no merge to abort (MERGE_HEAD missing)."
        "no merge in progress" = false
    ∧ msgIncludes "fatal: There is no merge in progress (MERGE_HEAD missing)."
        "no merge in progress" = true := by
  exact ⟨rfl, rfl, by decide, by decide⟩

/-- Counterexample for C3 as stated: after the base branch advances past
the task branch's fork point, the worktree has no commits of its own, so
the `baseBranch...HEAD` three-dot statistics are empty — yet
`getDiffStats` reports one changed file, because it actually runs the
two-dot `git diff <base>` against the working tree. -/
theorem getDiffStats_threeDot_counterexample :
    sampleGitBaseAhead.worktrees.find? (fun w => w.slug = "fix-login-bug")
      = some sampleWorktree
    ∧ (specThreeDotDiffStats sampleGitBaseAhead sampleWorktree "main").totalFiles = 0
    ∧ getDiffStats sampleGitBaseAhead "fix-login-bug" (some "main")
      = .ok (contentDiff ["app.ts"] (fun _ => some "v2") (fun _ => some "v1"))
    ∧ (contentDiff ["app.ts"] (fun _ => some "v2") (fun _ => some "v1")).totalFiles = 1
    ∧ ¬ (getDiffStats sampleGitBaseAhead "fix-login-bug" (some "main")
        = .ok (specThreeDotDiffStats sampleGitBaseAhead sampleWorktree "main")) := by
  refine ⟨rfl, rfl, rfl, rfl, ?_⟩
  intro habs
  rw [show getDiffStats sampleGitBaseAhead "fix-login-bug" (some "main")
      = .ok (contentDiff ["app.ts"] (fun _ => some "v2") (fun _ => some "v1")) from rfl]
    at habs
  have h1 := congrArg DiffStats.totalFiles (Except.ok.inj habs)
  rw [show (contentDiff ["app.ts"] (fun _ => some "v2") (fun _ => some "v1")).totalFiles
      = 1 from rfl] at h1
  rw [show (specThreeDotDiffStats sampleGitBaseAhead sampleWorktree "main").totalFiles
      = 0 from rfl] at h1
  cases h1

/-- **C3 (amended).** `getDiffStats` computes its statistics with a
two-dot `git diff <base>` inside the worktree — the tip of the base
branch against the worktree's working tree — not the three-dot
`base...HEAD` merge-base form; on a freshly created worktree whose
working tree still equals the base tip it returns
`totalFiles = totalInsertions = totalDeletions = 0`. -/
theorem getDiffStats_twoDot_spec (st : GitState) (slug base : String)
    (wt : WorktreeInfo)
    (hrepo : st.isRepo = true)
    (hwt : st.worktrees.find? (fun w => w.slug = slug) = some wt) :
    getDiffStats st slug (some base)
      = .ok (contentDiff st.fileUniverse (st.tipContent base) (st.workingContent wt.path))
    ∧ ((∀ f ∈ st.fileUniverse, st.tipContent base f = st.workingContent wt.path f) →
      ∃ d, getDiffStats st slug (some base) = .ok d
        ∧ d.totalFiles = 0 ∧ d.totalInsertions = 0 ∧ d.totalDeletions = 0) := by
  have h1 : getDiffStats st slug (some base)
      = .ok (contentDiff st.fileUniverse (st.tipContent base) (st.workingContent wt.path)) := by
    simp [getDiffStats, hrepo, hwt]
  refine ⟨h1, ?_⟩
  intro hfresh
  refine ⟨contentDiff st.fileUniverse (st.tipContent base) (st.workingContent wt.path),
    h1, ?_, ?_, ?_⟩ <;>
  · have hnil : st.fileUniverse.filter
        (fun f => !(st.tipContent base f == st.workingContent wt.path f)) = [] := by
      rw [List.filter_eq_nil_iff]
      intro f hf
      rw [hfresh f hf]
      simp
    simp [contentDiff, hnil]

/-- Witness for C3 (amended) at the fresh sample worktree. -/
theorem getDiffStats_twoDot_spec_witness :
    getDiffStats sampleGit "fix-login-bug" (some "main")
      = .ok (contentDiff sampleGit.fileUniverse (sampleGit.tipContent "main")
          (sampleGit.workingContent sampleWorktree.path))
    ∧ ∃ d, getDiffStats sampleGit "fix-login-bug" (some "main") = .ok d
        ∧ d.totalFiles = 0 ∧ d.totalInsertions = 0 ∧ d.totalDeletions = 0 := by
  have h := getDiffStats_twoDot_spec sampleGit "fix-login-bug" "main" sampleWorktree
    (by rfl) (by rfl)
  exact ⟨h.1, h.2 (fun f _ => rfl)⟩

/-! ## Cross-task analysis lemmas and claim C8 -/

/-- Inserting into a set twice is inserting once. -/
theorem setInsert_idem (s : String) (l : List String) :
    setInsert s (setInsert s l) = setInsert s l := by
  unfold setInsert
  by_cases h : s ∈ l
  · rw [if_pos h, if_pos h]
  · rw [if_neg h, if_pos (by simp)]

/-- The file map after recording one touch, looked up. -/
theorem lookupD_mapAdd (f p s : String) (m : List (String × List String)) :
    lookupD f (mapAdd p s m)
      = if p = f then setInsert s (lookupD f m) else lookupD f m := by
  induction m with
  | nil =>
    by_cases h : p = f
    · rw [if_pos h]; simp [mapAdd, lookupD, h, setInsert]
    · rw [if_neg h]; simp [mapAdd, lookupD, h]
  | cons e r ih =>
    obtain ⟨k, v⟩ := e
    by_cases hk : k = p
    · subst hk
      rw [mapAdd, if_pos rfl]
      by_cases hf : k = f
      · rw [if_pos hf, lookupD, if_pos hf, lookupD, if_pos hf]
      · rw [if_neg hf, lookupD, if_neg hf, lookupD, if_neg hf]
    · rw [mapAdd, if_neg hk]
      by_cases hf : k = f
      · have hpf : ¬ p = f := fun h => hk (h ▸ hf.symm ▸ rfl)
        rw [if_neg hpf, lookupD, if_pos hf, lookupD, if_pos hf]
      · rw [lookupD, if_neg hf, ih, lookupD, if_neg hf]

/-- Recording a touch adds at most the one key. -/
theorem hasKey_mapAdd (f p s : String) (m : List (String × List String)) :
    hasKey f (mapAdd p s m) = (hasKey f m || decide (p = f)) := by
  induction m with
  | nil => simp [mapAdd, hasKey]
  | cons e r ih =>
    obtain ⟨k, v⟩ := e
    by_cases hk : k = p
    · subst hk
      rw [mapAdd, if_pos rfl]
      simp [hasKey]
      by_cases hf : k = f
      · subst hf; simp
      · simp [hf]
    · rw [mapAdd, if_neg hk]
      simp only [hasKey, List.any_cons] at ih ⊢
      rw [ih]
      cases h : decide (k = f) <;> simp [Bool.or_assoc]

/-- The keys of the file map after recording one touch. -/
theorem keys_mapAdd (p s : String) (m : List (String × List String)) :
    (mapAdd p s m).map Prod.fst
      = if hasKey p m then m.map Prod.fst else m.map Prod.fst ++ [p] := by
  induction m with
  | nil => simp [mapAdd, hasKey]
  | cons e r ih =>
    obtain ⟨k, v⟩ := e
    by_cases hk : k = p
    · subst hk
      rw [mapAdd, if_pos rfl]
      have : hasKey k ((k, v) :: r) = true := by simp [hasKey]
      rw [this]
      simp
    · rw [mapAdd, if_neg hk]
      have hkey : hasKey p ((k, v) :: r) = hasKey p r := by
        simp only [hasKey, List.any_cons]
        rw [decide_eq_false hk]
        simp
      rw [hkey]
      cases h : hasKey p r <;> rw [h] at ih <;> simp [ih]

/-- A key is in the map exactly when `hasKey` says so. -/
theorem hasKey_iff_mem_keys (f : String) (m : List (String × List String)) :
    hasKey f m = true ↔ f ∈ m.map Prod.fst := by
  induction m with
  | nil => simp [hasKey]
  | cons e r ih =>
    obtain ⟨k, v⟩ := e
    simp only [hasKey, List.any_cons, List.map_cons, List.mem_cons] at ih ⊢
    constructor
    · intro h
      rcases Bool.or_eq_true_iff.1 h with h1 | h1
      · exact Or.inl (of_decide_eq_true h1).symm
      · exact Or.inr (ih.1 h1)
    · intro h
      rcases h with h1 | h1
      · exact Bool.or_eq_true_iff.2 (Or.inl (decide_eq_true h1.symm))
      · exact Bool.or_eq_true_iff.2 (Or.inr (ih.2 h1))

/-- Recording a touch keeps the keys duplicate-free. -/
theorem nodupKeys_mapAdd (p s : String) (m : List (String × List String))
    (hnd : (m.map Prod.fst).Nodup) : ((mapAdd p s m).map Prod.fst).Nodup := by
  rw [keys_mapAdd]
  by_cases h : hasKey p m = true
  · rw [if_pos h]; exact hnd
  · rw [if_neg h]
    have hp : ¬ p ∈ m.map Prod.fst := fun hmem =>
      h ((hasKey_iff_mem_keys p m).2 hmem)
    simp [List.nodup_append, hnd, hp]

/-- The inner loop of `buildFileMap` (one analysis's files), looked up:
the slug is inserted exactly when one of the files is the sought path. -/
theorem lookupD_filesFold (f slug : String) (files : List FileChange) :
    ∀ m, lookupD f (files.foldl (fun m2 fc => mapAdd fc.path slug m2) m)
      = if files.any (fun fc => fc.path = f) then setInsert slug (lookupD f m)
        else lookupD f m := by
  induction files with
  | nil => intro m; simp
  | cons fc fs ih =>
    intro m
    rw [List.foldl_cons, ih, List.any_cons]
    by_cases hp : fc.path = f
    · rw [lookupD_mapAdd, if_pos hp]
      by_cases hany : fs.any (fun fc => fc.path = f) = true
      · rw [if_pos hany, setInsert_idem]
        simp [hp, hany]
      · rw [if_neg hany]
        simp [hp]
    · rw [lookupD_mapAdd, if_neg hp]
      simp [hp]

/-- The inner loop's effect on key presence. -/
theorem hasKey_filesFold (f slug : String) (files : List FileChange) :
    ∀ m, hasKey f (files.foldl (fun m2 fc => mapAdd fc.path slug m2) m)
      = (hasKey f m || files.any (fun fc => fc.path = f)) := by
  induction files with
  | nil => intro m; simp
  | cons fc fs ih =>
    intro m
    rw [List.foldl_cons, ih, hasKey_mapAdd, List.any_cons, Bool.or_assoc]

/-- The inner loop keeps the keys duplicate-free. -/
theorem nodupKeys_filesFold (slug : String) (files : List FileChange) :
    ∀ m, (m.map Prod.fst).Nodup →
      ((files.foldl (fun m2 fc => mapAdd fc.path slug m2) m).map Prod.fst).Nodup := by
  induction files with
  | nil => intro m h; simpa using h
  | cons fc fs ih =>
    intro m h
    rw [List.foldl_cons]
    exact ih _ (nodupKeys_mapAdd _ _ _ h)

/-- The outer loop of `buildFileMap`, looked up: folding over the
analyses feeds the per-analysis insertions of `touchingSlugs`. -/
theorem lookupD_analysesFold (f : String) (analyses : List TaskDiffAnalysis) :
    ∀ m, lookupD f (analyses.foldl
        (fun m2 a => a.files.foldl (fun m3 fc => mapAdd fc.path a.task.slug m3) m2) m)
      = analyses.foldl
          (fun acc a =>
            if a.files.any (fun fc => fc.path = f) then setInsert a.task.slug acc
            else acc)
          (lookupD f m) := by
  induction analyses with
  | nil => intro m; simp
  | cons a as ih =>
    intro m
    rw [List.foldl_cons, ih, List.foldl_cons, lookupD_filesFold]

/-- The file map's entry for `f` is exactly `touchingSlugs`. -/
theorem lookupD_buildFileMap (f : String) (analyses : List TaskDiffAnalysis) :
    lookupD f (buildFileMap analyses) = touchingSlugs analyses f := by
  rw [buildFileMap, lookupD_analysesFold]
  rfl

/-- The file map has a key exactly for touched files. -/
theorem hasKey_buildFileMap (f : String) (analyses : List TaskDiffAnalysis) :
    hasKey f (buildFileMap analyses)
      = analyses.any (fun a => a.files.any (fun fc => fc.path = f)) := by
  rw [buildFileMap]
  have h : ∀ m, hasKey f (analyses.foldl
      (fun m2 a => a.files.foldl (fun m3 fc => mapAdd fc.path a.task.slug m3) m2) m)
      = (hasKey f m || analyses.any (fun a => a.files.any (fun fc => fc.path = f))) := by
    induction analyses with
    | nil => intro m; simp
    | cons a as ih =>
      intro m
      rw [List.foldl_cons, ih, hasKey_filesFold, List.any_cons, Bool.or_assoc]
  rw [h []]
  simp [hasKey]

/-- The file map's keys are duplicate-free. -/
theorem nodupKeys_buildFileMap (analyses : List TaskDiffAnalysis) :
    ((buildFileMap analyses).map Prod.fst).Nodup := by
  rw [buildFileMap]
  have h : ∀ m : List (String × List String), (m.map Prod.fst).Nodup →
      ((analyses.foldl
        (fun m2 a => a.files.foldl (fun m3 fc => mapAdd fc.path a.task.slug m3) m2)
        m).map Prod.fst).Nodup := by
    induction analyses with
    | nil => intro m hm; simpa using hm
    | cons a as ih =>
      intro m hm
      rw [List.foldl_cons]
      exact ih _ (nodupKeys_filesFold _ _ _ hm)
  exact h [] (by simp)

/-- Folding the touch-collection over untouched analyses is the
identity. -/
theorem touchingSlugsFold_untouched (f : String) :
    ∀ (analyses : List TaskDiffAnalysis) (acc : List String),
      (∀ a ∈ analyses, (a.files.any fun fc => fc.path = f) = false) →
      analyses.foldl
        (fun acc a =>
          if a.files.any (fun fc => fc.path = f) then setInsert a.task.slug acc
          else acc) acc = acc := by
  intro analyses
  induction analyses with
  | nil => intro acc _; rfl
  | cons a as ih =>
    intro acc hall
    rw [List.foldl_cons, if_neg (by rw [hall a (by simp)]; simp)]
    exact ih acc (fun x hx => hall x (by simp [hx]))

/-- An untouched file has an empty `touchingSlugs`. -/
theorem touchingSlugs_of_not_touched (f : String) (analyses : List TaskDiffAnalysis)
    (h : analyses.any (fun a => a.files.any (fun fc => fc.path = f)) = false) :
    touchingSlugs analyses f = [] := by
  rw [touchingSlugs]
  rw [List.any_eq_false] at h
  exact touchingSlugsFold_untouched f analyses []
    (fun a ha => by
      have := h a ha
      simpa using this)

/-- Every record `getOverlappingFiles` emits names a key of the file map. -/
theorem mem_keys_of_mem_overlaps (analyses : List TaskDiffAnalysis) (r : FileOverlap)
    (hr : r ∈ getOverlappingFiles analyses) :
    r.file ∈ (buildFileMap analyses).map Prod.fst := by
  rw [getOverlappingFiles] at hr
  rcases List.mem_filterMap.1 hr with ⟨e, he, hge⟩
  by_cases h : 1 < e.2.length
  · rw [if_pos h] at hge
    have hsome : (⟨e.1, e.2⟩ : FileOverlap) = r := Option.some.inj hge
    have hfile : e.1 = r.file := congrArg FileOverlap.file hsome
    rw [← hfile]
    exact List.mem_map_of_mem Prod.fst he
  · rw [if_neg h] at hge
    cases hge

/-- With duplicate-free keys, a member entry is the looked-up one. -/
theorem lookupD_of_mem_nodup (f : String) (v : List String)
    (m : List (String × List String))
    (hnd : (m.map Prod.fst).Nodup) (hmem : (f, v) ∈ m) : lookupD f m = v := by
  induction m with
  | nil => cases hmem
  | cons e r ih =>
    obtain ⟨k, w⟩ := e
    rw [List.map_cons] at hnd
    have hnd2 := List.nodup_cons.1 hnd
    rcases List.mem_cons.1 hmem with h1 | h1
    · have hk : k = f := (congrArg Prod.fst h1).symm
      have hv : v = w := congrArg Prod.snd h1
      rw [lookupD, if_pos hk]
      exact hv.symm
    · have hk : ¬ k = f := by
        intro hkf
        have hmem2 : f ∈ r.map Prod.fst := by
          have := List.mem_map_of_mem Prod.fst h1
          simpa using this
        rw [hkf] at hnd2
        exact hnd2.1 hmem2
      rw [lookupD, if_neg hk]
      exact ih hnd2.2 h1

/-- Counting the overlap records for one file over a map with
duplicate-free keys. -/
theorem overlap_count_nodup (f : String) (m : List (String × List String))
    (hnd : (m.map Prod.fst).Nodup) :
    ((m.filterMap (fun e => if 1 < e.2.length then some (⟨e.1, e.2⟩ : FileOverlap)
        else none)).filter (fun r => r.file = f)).length
      = if hasKey f m && decide (1 < (lookupD f m).length) then 1 else 0 := by
  induction m with
  | nil => simp [hasKey, lookupD]
  | cons e r ih =>
    obtain ⟨k, v⟩ := e
    rw [List.map_cons] at hnd
    have hnd2 := List.nodup_cons.1 hnd
    have ih2 := ih hnd2.2
    by_cases hk : k = f
    · subst hk
      have hkeyr : hasKey k r = false := by
        cases h : hasKey k r
        · rfl
        · exact absurd ((hasKey_iff_mem_keys k r).1 h) hnd2.1
      have hrest : ((r.filterMap (fun e => if 1 < e.2.length then
          some (⟨e.1, e.2⟩ : FileOverlap) else none)).filter
            (fun r2 => r2.file = k)).length = 0 := by
        rw [ih2, hkeyr]
        rfl
      have hkey : hasKey k ((k, v) :: r) = true := by simp [hasKey]
      have hlook : lookupD k ((k, v) :: r) = v := by rw [lookupD, if_pos rfl]
      rw [hkey, hlook]
      by_cases hv : 1 < v.length
      · rw [List.filterMap_cons_some (by rw [if_pos hv]),
          List.filter_cons_of_pos (by simp), List.length_cons, hrest,
          decide_eq_true hv]
        rfl
      · rw [List.filterMap_cons_none (by rw [if_neg hv]), hrest,
          decide_eq_false hv]
        rfl
    · have hkey : hasKey f ((k, v) :: r) = hasKey f r := by
        simp only [hasKey, List.any_cons]
        rw [decide_eq_false hk]
        simp
      have hlook : lookupD f ((k, v) :: r) = lookupD f r := by
        rw [lookupD, if_neg hk]
      rw [hkey, hlook]
      by_cases hv : 1 < v.length
      · rw [List.filterMap_cons_some (by rw [if_pos hv]),
          List.filter_cons_of_neg (by simp [hk]), ih2]
      · rw [List.filterMap_cons_none (by rw [if_neg hv]), ih2]

/-- **C8.** For every analysis list and file path, `getOverlappingFiles`
returns exactly one record for the path when strictly more than one task
slug touches it and none otherwise, and any record for the path lists
exactly the touching slugs (first touch first). -/
theorem getOverlappingFiles_spec (analyses : List TaskDiffAnalysis) (f : String) :
    ((getOverlappingFiles analyses).filter (fun r => r.file = f)).length
      = (if 2 ≤ (touchingSlugs analyses f).length then 1 else 0)
    ∧ ∀ r ∈ getOverlappingFiles analyses, r.file = f →
        r.tasks = touchingSlugs analyses f := by
  constructor
  · rw [getOverlappingFiles,
      overlap_count_nodup f _ (nodupKeys_buildFileMap analyses),
      lookupD_buildFileMap]
    by_cases hkey : hasKey f (buildFileMap analyses) = true
    · rw [hkey]
      simp only [Bool.true_and]
      by_cases hlen : 1 < (touchingSlugs analyses f).length
      · rw [decide_eq_true hlen, if_pos rfl]
        exact (if_pos hlen).symm
      · rw [decide_eq_false hlen]
        have hlen2 : ¬ 2 ≤ (touchingSlugs analyses f).length := hlen
        rw [if_neg hlen2]
        simp
    · have hkeyf : hasKey f (buildFileMap analyses) = false := by
        cases h : hasKey f (buildFileMap analyses)
        · rfl
        · exact absurd h hkey
      have hany := hkeyf
      rw [hasKey_buildFileMap] at hany
      have hnil : touchingSlugs analyses f = [] :=
        touchingSlugs_of_not_touched f analyses hany
      rw [hkeyf, hnil]
      simp
  · intro r hr hrf
    rw [getOverlappingFiles] at hr
    rcases List.mem_filterMap.1 hr with ⟨e, he, hge⟩
    by_cases h : 1 < e.2.length
    · rw [if_pos h] at hge
      have hsome : (⟨e.1, e.2⟩ : FileOverlap) = r := Option.some.inj hge
      have hfile : e.1 = r.file := congrArg FileOverlap.file hsome
      have htasks : e.2 = r.tasks := congrArg FileOverlap.tasks hsome
      have hpair : (f, e.2) = e := by
        have h1 : (f, e.2).1 = e.1 := by
          rw [hfile, hrf]
        exact Prod.ext h1 rfl
      have hlook : lookupD f (buildFileMap analyses) = e.2 :=
        lookupD_of_mem_nodup f e.2 _ (nodupKeys_buildFileMap analyses)
          (by rw [hpair]; exact he)
      rw [← htasks, ← hlook, lookupD_buildFileMap]
    · rw [if_neg h] at hge
      cases hge

/-- Witness for C8 at the claim's example: task A touching `x.ts, y.ts`
and task B touching `y.ts, z.ts` overlap exactly on `y.ts`. -/
theorem getOverlappingFiles_spec_witness :
    ((getOverlappingFiles
        [⟨sampleTask, [⟨"x.ts", .modified, 1, 0⟩, ⟨"y.ts", .modified, 2, 0⟩], 3, 0, ""⟩,
         ⟨sampleTask2, [⟨"y.ts", .modified, 1, 1⟩, ⟨"z.ts", .added, 4, 0⟩], 5, 1, ""⟩]).filter
      (fun r => r.file = "y.ts")).length = 1
    ∧ getOverlappingFiles
        [⟨sampleTask, [⟨"x.ts", .modified, 1, 0⟩, ⟨"y.ts", .modified, 2, 0⟩], 3, 0, ""⟩,
         ⟨sampleTask2, [⟨"y.ts", .modified, 1, 1⟩, ⟨"z.ts", .added, 4, 0⟩], 5, 1, ""⟩]
      = [⟨"y.ts", ["fix-login-bug", "add-dark-mode"]⟩] := by
  have h := getOverlappingFiles_spec
    [⟨sampleTask, [⟨"x.ts", .modified, 1, 0⟩, ⟨"y.ts", .modified, 2, 0⟩], 3, 0, ""⟩,
     ⟨sampleTask2, [⟨"y.ts", .modified, 1, 1⟩, ⟨"z.ts", .added, 4, 0⟩], 5, 1, ""⟩]
    "y.ts"
  refine ⟨?_, by rfl⟩
  rw [h.1]
  rfl

/-! ## Directory-sharing lemmas and claim C9 -/

/-- Characterisation of the `createSymlinks` loop from any starting
accumulator: a candidate lands in `created` exactly when its source
exists, its destination does not, and the link call does not raise;
every other candidate lands in `skipped`; the bytes saved are the sizes
of the created directories. -/
theorem symlinkFold_characterize (fs : FsModel) (l : List String) :
    ∀ res : SymlinkResult,
      (l.foldl (symlinkStep fs) res).created
        = res.created ++ l.filter
            (fun d => fs.srcExists d && !fs.destExists d && !fs.symlinkFails d)
      ∧ (l.foldl (symlinkStep fs) res).skipped
        = res.skipped ++ l.filter
            (fun d => !(fs.srcExists d && !fs.destExists d && !fs.symlinkFails d))
      ∧ (l.foldl (symlinkStep fs) res).savedBytes
        = res.savedBytes
          + ((l.filter
              (fun d => fs.srcExists d && !fs.destExists d && !fs.symlinkFails d)).map
                fs.dirSize).sum := by
  induction l with
  | nil => intro res; simp
  | cons d ds ih =>
    intro res
    rw [List.foldl_cons]
    obtain ⟨ih1, ih2, ih3⟩ := ih (symlinkStep fs res d)
    by_cases hsrc : fs.srcExists d = true
    · by_cases hdest : fs.destExists d = true
      · have hstep : symlinkStep fs res d
            = { res with skipped := res.skipped ++ [d] } := by
          simp [symlinkStep, hsrc, hdest]
        have hp : (fs.srcExists d && !fs.destExists d && !fs.symlinkFails d) = false := by
          rw [hsrc, hdest]; rfl
        refine ⟨?_, ?_, ?_⟩
        · rw [ih1, hstep, List.filter_cons_of_neg (by rw [hp]; simp)]
        · rw [ih2, hstep, List.filter_cons_of_pos (by rw [hp]; rfl)]
          simp
        · rw [ih3, hstep, List.filter_cons_of_neg (by rw [hp]; simp)]
      · by_cases hfail : fs.symlinkFails d = true
        · have hstep : symlinkStep fs res d
              = { res with skipped := res.skipped ++ [d] } := by
            simp [symlinkStep, hsrc, hdest, hfail]
          have hp : (fs.srcExists d && !fs.destExists d && !fs.symlinkFails d)
              = false := by
            rw [hsrc, hfail]
            simp
          refine ⟨?_, ?_, ?_⟩
          · rw [ih1, hstep, List.filter_cons_of_neg (by rw [hp]; simp)]
          · rw [ih2, hstep, List.filter_cons_of_pos (by rw [hp]; rfl)]
            simp
          · rw [ih3, hstep, List.filter_cons_of_neg (by rw [hp]; simp)]
        · have hstep : symlinkStep fs res d
              = { res with
                  created := res.created ++ [d]
                  savedBytes := res.savedBytes + fs.dirSize d } := by
            simp [symlinkStep, hsrc, hdest, hfail]
          have hp : (fs.srcExists d && !fs.destExists d && !fs.symlinkFails d)
              = true := by
            rw [hsrc]
            simp [hdest, hfail]
          refine ⟨?_, ?_, ?_⟩
          · rw [ih1, hstep, List.filter_cons_of_pos (by rw [hp])]
            simp
          · rw [ih2, hstep, List.filter_cons_of_neg (by rw [hp]; simp)]
          · rw [ih3, hstep, List.filter_cons_of_pos (by rw [hp])]
            simp [Nat.add_assoc]
    · have hstep : symlinkStep fs res d
          = { res with skipped := res.skipped ++ [d] } := by
        simp [symlinkStep, hsrc]
      have hp : (fs.srcExists d && !fs.destExists d && !fs.symlinkFails d)
          = false := by
        cases h : fs.srcExists d
        · rfl
        · exact absurd h hsrc
      refine ⟨?_, ?_, ?_⟩
      · rw [ih1, hstep, List.filter_cons_of_neg (by rw [hp]; simp)]
      · rw [ih2, hstep, List.filter_cons_of_pos (by rw [hp]; rfl)]
        simp
      · rw [ih3, hstep, List.filter_cons_of_neg (by rw [hp]; simp)]

/-- **C9.** `createSymlinks` always returns a `{created, skipped,
savedBytes}` record (its errors degrade to skips by construction): every
candidate whose source is missing, whose destination exists, or whose
link call raises is recorded in `skipped`; every other candidate is
recorded in `created`; `savedBytes` is the sum of the created
directories' sizes; and only candidates are recorded. -/
theorem createSymlinks_spec (fs : FsModel) (custom : List String) (dir : String) :
    (dir ∈ dirsToSymlink fs custom →
      ((fs.srcExists dir = false ∨ fs.destExists dir = true ∨
          fs.symlinkFails dir = true) →
        dir ∈ (createSymlinks fs custom).skipped)
      ∧ (fs.srcExists dir = true → fs.destExists dir = false →
          fs.symlinkFails dir = false →
        dir ∈ (createSymlinks fs custom).created))
    ∧ (createSymlinks fs custom).savedBytes
        = ((createSymlinks fs custom).created.map fs.dirSize).sum
    ∧ (dir ∈ (createSymlinks fs custom).created ∨
        dir ∈ (createSymlinks fs custom).skipped →
        dir ∈ dirsToSymlink fs custom) := by
  obtain ⟨h1, h2, h3⟩ :=
    symlinkFold_characterize fs (dirsToSymlink fs custom)
      { created := [], skipped := [], savedBytes := 0 }
  have hc : (createSymlinks fs custom).created
      = (dirsToSymlink fs custom).filter
          (fun d => fs.srcExists d && !fs.destExists d && !fs.symlinkFails d) := by
    rw [createSymlinks, h1]
    rfl
  have hs : (createSymlinks fs custom).skipped
      = (dirsToSymlink fs custom).filter
          (fun d => !(fs.srcExists d && !fs.destExists d && !fs.symlinkFails d)) := by
    rw [createSymlinks, h2]
    rfl
  have hb : (createSymlinks fs custom).savedBytes
      = (((dirsToSymlink fs custom).filter
          (fun d => fs.srcExists d && !fs.destExists d && !fs.symlinkFails d)).map
            fs.dirSize).sum := by
    rw [createSymlinks, h3]
    exact Nat.zero_add _
  refine ⟨fun hmem => ⟨?_, ?_⟩, ?_, ?_⟩
  · intro hskip
    rw [hs]
    apply List.mem_filter.2
    refine ⟨hmem, ?_⟩
    rcases hskip with h | h | h
    · simp [h]
    · simp [h]
    · simp [h]
  · intro ha hb2 hc2
    rw [hc]
    apply List.mem_filter.2
    refine ⟨hmem, ?_⟩
    simp [ha, hb2, hc2]
  · rw [hb, hc]
  · intro h
    rcases h with h | h
    · rw [hc] at h
      exact List.mem_of_mem_filter h
    · rw [hs] at h
      exact List.mem_of_mem_filter h

/-- Witness for C9 at the sample filesystem: `node_modules` is linked for
1000 bytes, `dist` (raising link) and `.cache` (existing destination) are
skipped. -/
theorem createSymlinks_spec_witness :
    "node_modules" ∈ (createSymlinks sampleFs ["extra"]).created
    ∧ "dist" ∈ (createSymlinks sampleFs ["extra"]).skipped
    ∧ ".cache" ∈ (createSymlinks sampleFs ["extra"]).skipped
    ∧ (createSymlinks sampleFs ["extra"]).savedBytes
        = ((createSymlinks sampleFs ["extra"]).created.map sampleFs.dirSize).sum := by
  have h1 := createSymlinks_spec sampleFs ["extra"] "node_modules"
  have h2 := createSymlinks_spec sampleFs ["extra"] "dist"
  have h3 := createSymlinks_spec sampleFs ["extra"] ".cache"
  refine ⟨(h1.1 (by decide)).2 (by rfl) (by rfl) (by rfl), ?_, ?_, h1.2.1⟩
  · exact (h2.1 (by decide)).1 (Or.inr (Or.inr (by rfl)))
  · exact (h3.1 (by decide)).1 (Or.inr (Or.inl (by rfl)))

end Hive
